import Mathlib

/-!
Shallow embedding of the stock_dashboard core — the position-accounting
summariser (`portfolio.py`), the technical indicators (`indicators.py`) and
the moving-average crossover backtest (`backtesting.py`) — together with
proofs about it.  Money and prices are modelled as exact rationals; a float
NaN (or a Python `None`) of the source is modelled as `Option.none`.
-/

/-- Trade side.  `add_trade` only ever stores "BUY" or "SELL"; the summariser
treats every non-BUY side as a sell, so two constructors are faithful. -/
inductive Side where
  | buy
  | sell
deriving DecidableEq

/-- Trade record as consumed by `PortfolioManager._summarise_symbol`.  Symbol
and date are omitted: the summariser receives the one-symbol, date-ordered
list (the `sort_values("trade_date")` step is modelled by the input list
already being in date order) and reads only quantity, price, side and fees. -/
structure Trade where
  quantity : ℚ
  price : ℚ
  side : Side
  fees : ℚ
deriving DecidableEq

/-- The running state of the summariser's loop: `net_qty`, `avg_cost`,
`realized`. -/
structure PosState where
  netQty : ℚ
  avgCost : ℚ
  realized : ℚ
deriving DecidableEq

/-- One iteration of the loop body of `_summarise_symbol`.  Python's
`if net_qty:` truthiness test on a float is `net_qty ≠ 0`. -/
def stepTrade (s : PosState) (t : Trade) : PosState :=
  match t.side with
  | .buy =>
      let totalCost := s.avgCost * s.netQty + t.price * t.quantity + t.fees
      let netQty := s.netQty + t.quantity
      let avgCost := if netQty ≠ 0 then totalCost / netQty else 0
      ⟨netQty, avgCost, s.realized⟩
  | .sell =>
      if s.netQty ≤ 0 then
        -- no existing long position: open or extend a short at the sale price
        ⟨s.netQty - t.quantity, t.price, s.realized - t.fees⟩
      else
        let sellQty := min t.quantity s.netQty
        let realized := s.realized + (t.price - s.avgCost) * sellQty - t.fees
        let netQty := s.netQty - sellQty
        if netQty = 0 then
          ⟨netQty, 0, realized⟩
        else if t.quantity > sellQty then
          -- source comment: "additional quantity turns the position short"
          ⟨netQty - (t.quantity - sellQty), t.price, realized⟩
        else
          ⟨netQty, s.avgCost, realized⟩

/-- The per-symbol summary returned by `_summarise_symbol`.  The source puts
`float("nan")` in the dict where a value is `None`; both are `none` here.
`total_pl` is always a number in the source (it starts as `realized`), so it
is a plain rational. -/
structure Summary where
  netQuantity : ℚ
  averageCost : ℚ
  marketPrice : Option ℚ
  marketValue : Option ℚ
  realizedPl : ℚ
  unrealizedPl : Option ℚ
  totalPl : ℚ
deriving DecidableEq

/-- `_summarise_symbol`: fold the loop body over the date-ordered trades, then
fill in the market-price dependent fields.  In the source
`total_pl = realized + (unrealized or 0.0)`; in the branch where it runs,
`unrealized` is a number, and `x or 0.0` is `x` up to the value-preserving
`0.0 or 0.0 = 0.0` case, so it is `realized + unrealized`. -/
def summarise_symbol (trades : List Trade) (marketPrice : Option ℚ) : Summary :=
  let final := trades.foldl stepTrade ⟨0, 0, 0⟩
  match marketPrice with
  | none =>
      ⟨final.netQty, final.avgCost, none, none, final.realized, none, final.realized⟩
  | some mp =>
      ⟨final.netQty, final.avgCost, some mp, some (mp * final.netQty), final.realized,
        some ((mp - final.avgCost) * final.netQty),
        final.realized + (mp - final.avgCost) * final.netQty⟩

/-- Division that fails (like Python's `ZeroDivisionError`) on a zero
denominator. -/
def checkedDiv (a b : ℚ) : Option ℚ :=
  if b = 0 then none else some (a / b)

/-- The loop body again, with its one division routed through `checkedDiv` so
that an (impossible) division by zero would surface as `none`.  The SELL path
performs no division at all, so it delegates to `stepTrade`. -/
def stepTradeChecked (s : PosState) (t : Trade) : Option PosState :=
  match t.side with
  | .buy =>
      let totalCost := s.avgCost * s.netQty + t.price * t.quantity + t.fees
      let netQty := s.netQty + t.quantity
      if netQty ≠ 0 then
        match checkedDiv totalCost netQty with
        | none => none
        | some avgCost => some ⟨netQty, avgCost, s.realized⟩
      else
        some ⟨netQty, 0, s.realized⟩
  | .sell => some (stepTrade s t)

/-- `_summarise_symbol` with the division-checked loop body. -/
def summariseChecked (trades : List Trade) (marketPrice : Option ℚ) : Option Summary := do
  let final ← trades.foldlM stepTradeChecked ⟨0, 0, 0⟩
  match marketPrice with
  | none =>
      pure ⟨final.netQty, final.avgCost, none, none, final.realized, none, final.realized⟩
  | some mp =>
      pure ⟨final.netQty, final.avgCost, some mp, some (mp * final.netQty), final.realized,
        some ((mp - final.avgCost) * final.netQty),
        final.realized + (mp - final.avgCost) * final.netQty⟩

/-- Value of `close.rolling(window=w, min_periods=w).mean()` at index `i`
(0-based): defined only once `w ≥ 1` observations fill the window, i.e. when
`1 ≤ w ≤ i + 1` (with `w = 0` every output is NaN, since the aggregation of
zero observations is NaN even with `min_periods = 0`).  The window covers the
`w` closes ending at index `i`. -/
def smaMean (close : List ℚ) (w : ℕ) (i : ℕ) : ℚ :=
  ((close.take (i + 1)).drop (i + 1 - w)).sum / (w : ℚ)

def smaAt (close : List ℚ) (w : ℕ) (i : ℕ) : Option ℚ :=
  if 1 ≤ w ∧ w ≤ i + 1 then some (smaMean close w i) else none

/-- The whole rolling-mean series for a nonnegative window. -/
def smaListNat (close : List ℚ) (w : ℕ) : List (Option ℚ) :=
  (List.range close.length).map (smaAt close w)

/-- The validation message pandas raises for a negative rolling window. -/
def rollingWindowMsg : String := "window must be an integer 0 or greater"

/-- `calculate_sma`: `close.rolling(window=window, min_periods=window).mean()`.
The pandas rolling constructor validates the window and raises a ValueError
for a negative one; a window of 0 or a window longer than the series is
accepted and produces an all-NaN series. -/
def calculate_sma (close : List ℚ) (window : ℤ) : Except String (List (Option ℚ)) :=
  if window < 0 then .error rollingWindowMsg
  else .ok (smaListNat close window.toNat)

/-- Wilder-style recursion `y ← (1-α)·y + α·x` after the seed, as produced by
`ewm(alpha=α, adjust=False).mean()`.  At a NaN input the output repeats the
running mean.  (RSI feeds this series whose only NaN is the leading one from
`diff()`, so the interior-NaN gap reweighting of pandas is never exercised.) -/
def ewmFrom (α : ℚ) (m : ℚ) : List (Option ℚ) → List (Option ℚ)
  | [] => []
  | none :: xs => some m :: ewmFrom α m xs
  | some v :: xs => some ((1 - α) * m + α * v) :: ewmFrom α ((1 - α) * m + α * v) xs

/-- `ewm(alpha=α, adjust=False).mean()`: leading NaNs stay NaN, the first
available value seeds the recursion. -/
def ewmAdjustFalse (α : ℚ) : List (Option ℚ) → List (Option ℚ)
  | [] => []
  | none :: xs => none :: ewmAdjustFalse α xs
  | some v :: xs => some v :: ewmFrom α v xs

/-- `close.diff()`: NaN at index 0, then the difference of consecutive
closes. -/
def diffList (close : List ℚ) : List (Option ℚ) :=
  match close with
  | [] => []
  | c :: rest => none :: List.zipWith (fun prev cur => some (cur - prev)) (c :: rest) rest

/-- `calculate_rsi`: gains and losses from the clipped diff, Wilder smoothing
of both at `alpha = 1/period`, then `rs = avg_gain / avg_loss.replace(0, NaN)`
and `rsi = 100 - 100/(1 + rs)`.  Wherever `avg_loss` is exactly 0 the
replacement makes `rs` (and hence `rsi`) NaN. -/
def calculate_rsi (close : List ℚ) (period : ℕ) : List (Option ℚ) :=
  let α : ℚ := 1 / period
  let delta := diffList close
  let gain := delta.map (Option.map (fun d => max d 0))
  let loss := delta.map (Option.map (fun d => max (-d) 0))
  let avgGain := ewmAdjustFalse α gain
  let avgLoss := ewmAdjustFalse α loss
  let rs := List.zipWith
    (fun g? l? =>
      match g?, l? with
      | some g, some l => if l = 0 then none else some (g / l)
      | _, _ => none)
    avgGain avgLoss
  rs.map (Option.map (fun r => 100 - 100 / (1 + r)))

/-- Input to the backtest: whether the frame has a "Close" column, and the
close prices themselves. -/
structure PriceData where
  hasClose : Bool
  close : List ℚ
deriving DecidableEq

/-- The ways `ma_crossover_backtest` can fail.  The first three are ValueErrors
raised before/while computing the moving averages (invalid-parameter errors in
the spec's taxonomy: a missing Close column, `fast_window ≥ slow_window`, a
negative window rejected by the pandas rolling validation); the last is the
"Not enough data to compute the moving averages." ValueError. -/
inductive BtError where
  | missingClose
  | windowOrder
  | negativeWindow
  | notEnoughData
deriving DecidableEq

/-- Failure category per the spec taxonomy: everything except the
insufficient-data failure is an invalid-parameter failure. -/
def BtError.isInvalidParameter : BtError → Bool
  | .notEnoughData => false
  | _ => true

/-- The rows of the working frame before `dropna()`: Close, FastMA, SlowMA per
bar. -/
def frameRows (cs : List ℚ) (fwt swt : ℕ) : List (ℚ × Option ℚ × Option ℚ) :=
  (List.range cs.length).map (fun i => (cs.getD i 0, smaAt cs fwt i, smaAt cs swt i))

/-- `frame.dropna()`: keep exactly the rows where both moving averages are
defined (Close, being a plain rational, is never NaN here). -/
def retainedTriples (cs : List ℚ) (fwt swt : ℕ) : List (ℚ × ℚ × ℚ) :=
  (frameRows cs fwt swt).filterMap (fun r =>
    r.2.1.bind (fun f => r.2.2.map (fun s => (r.1, f, s))))

/-- `close.pct_change().fillna(0)`: 0 at the first row, then
`close[t]/close[t-1] - 1`. -/
def pctChange (cs : List ℚ) : List ℚ :=
  match cs with
  | [] => []
  | c :: rest => 0 :: List.zipWith (fun prev cur => cur / prev - 1) (c :: rest) rest

/-- Running products of a series of factors, starting from `acc`
(`(1 + r).cumprod()` is `cumprodFrom 1` of the factors). -/
def cumprodFrom (acc : ℚ) : List ℚ → List ℚ
  | [] => []
  | x :: xs => (acc * x) :: cumprodFrom (acc * x) xs

/-- Running maxima continuing from the maximum `m` seen so far. -/
def cummaxFrom (m : ℚ) : List ℚ → List ℚ
  | [] => []
  | x :: xs => max m x :: cummaxFrom (max m x) xs

/-- `series.cummax()`. -/
def cummax (series : List ℚ) : List ℚ :=
  match series with
  | [] => []
  | s :: rest => s :: cummaxFrom s rest

/-- Minimum of a list below a running candidate `a`. -/
def listMinD (a : ℚ) (l : List ℚ) : ℚ := l.foldl min a

/-- `series.min()` for the (always nonempty) drawdown series; 0 on the
unreached empty case. -/
def seriesMin (l : List ℚ) : ℚ :=
  match l with
  | [] => 0
  | x :: xs => listMinD x xs

/-- `_max_drawdown` (source name begins with an underscore): 0 for an empty
series, else the minimum of `series / series.cummax() - 1`. -/
def max_drawdown (series : List ℚ) : ℚ :=
  if series.isEmpty then 0
  else seriesMin (List.zipWith (fun a b => a / b - 1) series (cummax series))

/-- Square of the pandas sample standard deviation (`ddof = 1`): NaN (`none`)
with fewer than two observations.  Keeping the variance instead of its square
root keeps the embedding inside the rationals. -/
def sampleVar (l : List ℚ) : Option ℚ :=
  if l.length < 2 then none
  else some ((l.map (fun x => (x - l.sum / (l.length : ℚ)) ^ 2)).sum / ((l.length : ℚ) - 1))

/-- Outcome of `sharpe = (avg_return / volatility * (252 ** 0.5)) if volatility
else 0.0`.  The float value in the defined, nonzero-volatility branch is the
irrational `mean/√var·√252`, kept symbolically as the pair (mean, variance). -/
inductive Sharpe where
  | nan
  | zero
  | ofMeanVar (mean sampleVariance : ℚ)
deriving DecidableEq

/-- Python truthiness drives the guard: a volatility of 0.0 is falsy and gives
0.0, a NaN volatility (fewer than two returns) is truthy, so the division runs
and the result is NaN. -/
def sharpeOf (mean : ℚ) (var : Option ℚ) : Sharpe :=
  match var with
  | none => .nan
  | some v => if v = 0 then .zero else .ofMeanVar mean v

/-- The summary statistics of a backtest run. -/
structure BtStats where
  totalTrades : ℚ
  strategyReturnPct : ℚ
  marketReturnPct : ℚ
  maxDrawdownPct : ℚ
  winRate : ℚ
  sharpe : Sharpe
deriving DecidableEq

/-- The equity-curve frame (after `dropna()`) plus the statistics. -/
structure BtResult where
  close : List ℚ
  fastMA : List ℚ
  slowMA : List ℚ
  signal : List ℚ
  position : List ℚ
  marketReturn : List ℚ
  strategyReturn : List ℚ
  cumMarket : List ℚ
  cumStrategy : List ℚ
  stats : BtStats
deriving DecidableEq

/-- The successful path of `ma_crossover_backtest` on the retained frame:
Signal is 1 where FastMA > SlowMA, Position is the Signal shifted down one row
with `fillna(0)`, returns/cumulative returns and the statistics follow the
source line by line (`iloc[-1]` is taken with an unreachable default, the
frame being nonempty on this path). -/
def btCompute (cs : List ℚ) (fwt swt : ℕ) : BtResult :=
  let retained := retainedTriples cs fwt swt
  let closeR := retained.map (fun t => t.1)
  let signal := retained.map (fun t => if t.2.1 > t.2.2 then (1 : ℚ) else 0)
  let position := 0 :: signal.dropLast
  let mr := pctChange closeR
  let sr := List.zipWith (fun m p => m * p) mr position
  let cumM := cumprodFrom 1 (mr.map (fun x => 1 + x))
  let cumS := cumprodFrom 1 (sr.map (fun x => 1 + x))
  let active := (position.filter (fun p => decide (p ≠ 0))).length
  let winning := ((List.zip position sr).filter (fun x => decide (x.1 ≠ 0 ∧ 0 < x.2))).length
  { close := closeR
    fastMA := retained.map (fun t => t.2.1)
    slowMA := retained.map (fun t => t.2.2)
    signal := signal
    position := position
    marketReturn := mr
    strategyReturn := sr
    cumMarket := cumM
    cumStrategy := cumS
    stats :=
      { totalTrades := (List.zipWith (fun prev cur => |cur - prev|) position position.tail).sum
        strategyReturnPct := (cumS.getLastD 0 - 1) * 100
        marketReturnPct := (cumM.getLastD 0 - 1) * 100
        maxDrawdownPct := max_drawdown cumS * 100
        winRate := if active = 0 then 0 else (winning : ℚ) / (active : ℚ)
        sharpe := sharpeOf (sr.sum / (sr.length : ℚ)) (sampleVar sr) } }

/-- `ma_crossover_backtest`: validation in source order — the Close column
check, the window-order check, then the pandas window validation inside
`calculate_sma` (with `fast_window < slow_window`, a negative slow window
forces a negative fast window, so checking the fast window covers both), the
emptiness check after `dropna()`, and finally the successful computation. -/
def ma_crossover_backtest (priceData : PriceData) (fastWindow slowWindow : ℤ) :
    Except BtError BtResult :=
  if priceData.hasClose = false then .error .missingClose
  else if fastWindow ≥ slowWindow then .error .windowOrder
  else if fastWindow < 0 then .error .negativeWindow
  else if (retainedTriples priceData.close fastWindow.toNat slowWindow.toNat).isEmpty then
    .error .notEnoughData
  else .ok (btCompute priceData.close fastWindow.toNat slowWindow.toNat)

lemma stepTradeChecked_eq (s : PosState) (t : Trade) :
    stepTradeChecked s t = some (stepTrade s t) := by
  cases t with
  | mk q p side f =>
      cases side with
      | buy =>
          simp only [stepTradeChecked, stepTrade, checkedDiv]
          by_cases h : s.netQty + q = 0 <;> simp [h]
      | sell => rfl

lemma foldlM_stepTradeChecked (trades : List Trade) :
    ∀ s : PosState, trades.foldlM stepTradeChecked s = some (trades.foldl stepTrade s) := by
  induction trades with
  | nil => intro s; rfl
  | cons t ts ih =>
      intro s
      simp only [List.foldlM, List.foldl, stepTradeChecked_eq, ih]
      rfl

/-- C1: evaluation of the summariser at the failing input BUY 10 @ 100
(fees 0) followed by SELL 15 @ 120 (fees 0).  The claim (and the spec) say
the sale closes the 10-share long and flips the 5-share remainder short,
giving net_quantity -5 and average_cost 120 (the sale price); the code
instead returns net_quantity 0 and average_cost 0, because whenever
`qty > sell_qty` the running quantity has just become exactly 0, so the
`elif` branch whose own comment says it "turns the position short" can never
run. -/
theorem c1_sell_flip_is_dead :
    (summarise_symbol [⟨10, 100, .buy, 0⟩, ⟨15, 120, .sell, 0⟩] none).netQuantity = 0
    ∧ (summarise_symbol [⟨10, 100, .buy, 0⟩, ⟨15, 120, .sell, 0⟩] none).averageCost = 0
    ∧ (summarise_symbol [⟨10, 100, .buy, 0⟩, ⟨15, 120, .sell, 0⟩] none).realizedPl = 200
    ∧ (summarise_symbol [⟨10, 100, .buy, 0⟩, ⟨15, 120, .sell, 0⟩] none).netQuantity ≠ -5 := by
  refine ⟨?_, ?_, ?_, ?_⟩ <;> norm_num [summarise_symbol, stepTrade, min_def]

/-- C3: a BUY leaves realized P&L unchanged, and (whenever the resulting net
quantity is nonzero) recomputes average cost as the fee-inclusive weighted
average (avg_cost·net_qty + p·q + f)/(net_qty + q); the two-trade scenario
BUY 10 @ 100 then SELL 4 @ 120 yields net_quantity 6, average_cost 100
(unchanged by the partial sale) and realized_pl 80. -/
theorem c3_buy_weighted_average (s : PosState) (t : Trade) (hb : t.side = Side.buy) :
    (stepTrade s t).realized = s.realized
    ∧ (s.netQty + t.quantity ≠ 0 →
        (stepTrade s t).avgCost
          = (s.avgCost * s.netQty + t.price * t.quantity + t.fees) / (s.netQty + t.quantity))
    ∧ (summarise_symbol [⟨10, 100, .buy, 0⟩, ⟨4, 120, .sell, 0⟩] none).netQuantity = 6
    ∧ (summarise_symbol [⟨10, 100, .buy, 0⟩, ⟨4, 120, .sell, 0⟩] none).averageCost = 100
    ∧ (summarise_symbol [⟨10, 100, .buy, 0⟩, ⟨4, 120, .sell, 0⟩] none).realizedPl = 80 := by
  refine ⟨?_, ?_, ?_, ?_, ?_⟩
  · simp [stepTrade, hb]
  · intro h
    simp [stepTrade, hb, h]
  all_goals norm_num [summarise_symbol, stepTrade, min_def]

theorem c3_buy_weighted_average_witness :
    (stepTrade ⟨2, 50, 7⟩ ⟨3, 10, .buy, 5⟩).realized = 7
    ∧ (stepTrade ⟨2, 50, 7⟩ ⟨3, 10, .buy, 5⟩).avgCost = (50 * 2 + 10 * 3 + 5) / (2 + 3) := by
  have h := c3_buy_weighted_average ⟨2, 50, 7⟩ ⟨3, 10, .buy, 5⟩ rfl
  exact ⟨h.1, h.2.1 (by norm_num)⟩

/-- C6 counterexample: summarising BUY 1 @ 10 then SELL 1 @ 20 (fees 0) with
no market price gives total_pl = 10, the realized P&L — a plain number, not
the null the claim requires. -/
theorem c6_total_pl_not_null :
    (summarise_symbol [⟨1, 10, .buy, 0⟩, ⟨1, 20, .sell, 0⟩] none).totalPl = 10
    ∧ (summarise_symbol [⟨1, 10, .buy, 0⟩, ⟨1, 20, .sell, 0⟩] none).realizedPl = 10 := by
  refine ⟨?_, ?_⟩ <;> norm_num [summarise_symbol, stepTrade, min_def]

/-- C6 amended: with no market price available, unrealized_pl, market_value
(and market_price) are null, while total_pl defaults to realized_pl instead
of being null. -/
theorem c6_no_price_fields (trades : List Trade) :
    (summarise_symbol trades none).unrealizedPl = none
    ∧ (summarise_symbol trades none).marketValue = none
    ∧ (summarise_symbol trades none).marketPrice = none
    ∧ (summarise_symbol trades none).totalPl = (summarise_symbol trades none).realizedPl := by
  simp [summarise_symbol]

/-- C10: the summariser is total.  Its only division — average cost on a BUY —
is guarded by the nonzero test on the updated net quantity (a BUY that
exactly closes a short sets average_cost to 0 instead of dividing), so the
division-checked run always succeeds, and it agrees with the direct
embedding. -/
theorem c10_summarise_total (trades : List Trade) (mp : Option ℚ) (s : PosState) (t : Trade)
    (hb : t.side = Side.buy) (h0 : s.netQty + t.quantity = 0) :
    summariseChecked trades mp = some (summarise_symbol trades mp)
    ∧ (stepTrade s t).avgCost = 0 := by
  constructor
  · simp only [summariseChecked, summarise_symbol, foldlM_stepTradeChecked, Option.bind_eq_bind,
      Option.some_bind]
    cases mp <;> rfl
  · simp [stepTrade, hb, h0]

theorem c10_summarise_total_witness :
    summariseChecked [⟨5, 3, .sell, 0⟩, ⟨5, 4, .buy, 0⟩] none
      = some (summarise_symbol [⟨5, 3, .sell, 0⟩, ⟨5, 4, .buy, 0⟩] none)
    ∧ (stepTrade ⟨-5, 3, 0⟩ ⟨5, 4, .buy, 0⟩).avgCost = 0 :=
  c10_summarise_total [⟨5, 3, .sell, 0⟩, ⟨5, 4, .buy, 0⟩] none ⟨-5, 3, 0⟩ ⟨5, 4, .buy, 0⟩
    rfl (by norm_num)

/-- C2: evaluation of the RSI at the failing input: the strictly increasing
close series [1, 2, 3] with the default period 14.  The average loss is 0 at
bars 1 and 2, so `avg_loss.replace(0, np.nan)` makes the relative strength —
and the RSI — NaN there, where the claim (and the spec) require exactly 100;
only the leading bar (no prior delta) should be undefined. -/
theorem c2_rsi_nan_on_zero_loss :
    calculate_rsi [1, 2, 3] 14 = [none, none, none]
    ∧ calculate_rsi [1, 2, 3] 14 ≠ [none, some 100, some 100] := by
  have h1 : calculate_rsi [1, 2, 3] 14 = [none, none, none] := by
    norm_num [calculate_rsi, diffList, ewmAdjustFalse, ewmFrom]
  refine ⟨h1, ?_⟩
  rw [h1]
  simp

/-- C9 counterexample: pandas validates the rolling window before touching
the data, so `calculate_sma` with the negative window -1 raises a ValueError
instead of returning an all-null series. -/
theorem c9_negative_window_raises :
    calculate_sma [1] (-1) = .error rollingWindowMsg := by
  rfl

/-- C9 amended: with window 0, or a window exceeding the series length, the
result is a defined series whose every value is null (not an error), and an
empty input series gives an empty output — for every nonnegative window; a
negative window raises pandas's window-validation ValueError. -/
theorem c9_sma_degenerate_windows (close : List ℚ) (w : ℤ) :
    (w = 0 ∨ (0 ≤ w ∧ (close.length : ℤ) < w) →
      calculate_sma close w = .ok (List.replicate close.length none))
    ∧ (close = [] → 0 ≤ w → calculate_sma close w = .ok [])
    ∧ (w < 0 → calculate_sma close w = .error rollingWindowMsg) := by
  refine ⟨?_, ?_, ?_⟩
  · rintro (rfl | ⟨hw, hlen⟩)
    · simp only [calculate_sma, if_neg (by omega : ¬ (0 : ℤ) < 0)]
      congr 1
      simp only [smaListNat, Int.toNat_zero]
      rw [List.eq_replicate_iff]
      refine ⟨by simp, ?_⟩
      intro b hb
      simp only [List.mem_map] at hb
      obtain ⟨i, _, hi⟩ := hb
      simpa [smaAt] using hi.symm
    · rw [calculate_sma, if_neg (by omega)]
      congr 1
      rw [smaListNat, List.eq_replicate_iff]
      refine ⟨by simp, ?_⟩
      intro b hb
      simp only [List.mem_map] at hb
      obtain ⟨i, hmem, hi⟩ := hb
      rw [List.mem_range] at hmem
      rw [← hi, smaAt, if_neg]
      rintro ⟨-, hle⟩
      omega
  · rintro rfl hw
    rw [calculate_sma, if_neg (by omega)]
    rfl
  · intro hw
    rw [calculate_sma, if_pos hw]

theorem c9_sma_degenerate_windows_witness :
    calculate_sma [(1 : ℚ), 2] 0 = .ok [none, none]
    ∧ calculate_sma [(1 : ℚ)] 5 = .ok [none]
    ∧ calculate_sma ([] : List ℚ) 3 = .ok []
    ∧ calculate_sma [(1 : ℚ)] (-2) = .error rollingWindowMsg := by
  refine ⟨?_, ?_, ?_, ?_⟩
  · simpa using (c9_sma_degenerate_windows [(1 : ℚ), 2] 0).1 (Or.inl rfl)
  · simpa using (c9_sma_degenerate_windows [(1 : ℚ)] 5).1 (Or.inr (by norm_num))
  · exact (c9_sma_degenerate_windows ([] : List ℚ) 3).2.1 rfl (by norm_num)
  · exact (c9_sma_degenerate_windows [(1 : ℚ)] (-2)).2.2 (by norm_num)

/-- C7: evaluation of the backtest at the failing input: the two bars [1, 2]
with fast_window 1 and slow_window 2 leave exactly one retained row.  The
pandas sample standard deviation of the single strategy return is NaN; a
float NaN is truthy in Python, so `if volatility` takes the division branch
and the reported sharpe_ratio is NaN — where the claim (and the spec) require
exactly 0 for a zero-or-undefined standard deviation, never NaN. -/
theorem c7_sharpe_nan_on_single_row :
    ma_crossover_backtest ⟨true, [1, 2]⟩ 1 2 = .ok (btCompute [1, 2] 1 2)
    ∧ (btCompute [1, 2] 1 2).strategyReturn.length = 1
    ∧ (btCompute [1, 2] 1 2).stats.sharpe = Sharpe.nan :=
  ⟨rfl, by decide, by decide⟩

/-- C4: every run returns a result or fails with an invalid-parameter error or
with the distinct insufficient-data error; `fast_window ≥ slow_window` always
fails with an invalid-parameter error, whatever the price data; and with a
valid window pair the run fails with the insufficient-data error exactly when
no row survives the moving averages and `dropna()`, returning a result
otherwise. -/
theorem c4_backtest_errors (pd : PriceData) (fw sw : ℤ) :
    ((∃ r, ma_crossover_backtest pd fw sw = .ok r)
      ∨ (∃ e, ma_crossover_backtest pd fw sw = .error e ∧ e.isInvalidParameter = true)
      ∨ ma_crossover_backtest pd fw sw = .error .notEnoughData)
    ∧ (fw ≥ sw →
        ∃ e, ma_crossover_backtest pd fw sw = .error e ∧ e.isInvalidParameter = true)
    ∧ (pd.hasClose = true → 0 ≤ fw → fw < sw →
        (ma_crossover_backtest pd fw sw = .error .notEnoughData
          ↔ retainedTriples pd.close fw.toNat sw.toNat = []))
    ∧ (pd.hasClose = true → 0 ≤ fw → fw < sw →
        retainedTriples pd.close fw.toNat sw.toNat ≠ [] →
        ma_crossover_backtest pd fw sw = .ok (btCompute pd.close fw.toNat sw.toNat)) := by
  have hbt : pd.hasClose = true → 0 ≤ fw → fw < sw →
      ma_crossover_backtest pd fw sw
        = if (retainedTriples pd.close fw.toNat sw.toNat).isEmpty then .error .notEnoughData
          else .ok (btCompute pd.close fw.toNat sw.toNat) := by
    intro hc h0 hlt
    rw [ma_crossover_backtest, if_neg (by simp [hc]), if_neg (by omega), if_neg (by omega)]
  refine ⟨?_, ?_, ?_, ?_⟩
  · rw [ma_crossover_backtest]
    split_ifs
    · exact Or.inr (Or.inl ⟨.missingClose, rfl, rfl⟩)
    · exact Or.inr (Or.inl ⟨.windowOrder, rfl, rfl⟩)
    · exact Or.inr (Or.inl ⟨.negativeWindow, rfl, rfl⟩)
    · exact Or.inr (Or.inr rfl)
    · exact Or.inl ⟨_, rfl⟩
  · intro hge
    rw [ma_crossover_backtest]
    by_cases h1 : pd.hasClose = false
    · rw [if_pos h1]
      exact ⟨.missingClose, rfl, rfl⟩
    · rw [if_neg h1, if_pos hge]
      exact ⟨.windowOrder, rfl, rfl⟩
  · intro hc h0 hlt
    rw [hbt hc h0 hlt]
    by_cases he : (retainedTriples pd.close fw.toNat sw.toNat).isEmpty
    · rw [if_pos he]
      simp [List.isEmpty_iff.mp he]
    · rw [if_neg he]
      constructor
      · intro h
        exact absurd h (by simp)
      · intro h
        exact absurd (List.isEmpty_iff.mpr h) he
  · intro hc h0 hlt hne
    rw [hbt hc h0 hlt, if_neg (fun he => hne (List.isEmpty_iff.mp he))]

/-- C4 witness: the spec's own scenarios — fast 50 / slow 20 fails as an
invalid-parameter error on any data; fast 20 / slow 50 on three bars fails
with the insufficient-data error; fast 1 / slow 2 on two bars succeeds. -/
theorem c4_backtest_errors_witness :
    (∃ e, ma_crossover_backtest ⟨true, [1, 2, 3]⟩ 50 20 = .error e
        ∧ e.isInvalidParameter = true)
    ∧ ma_crossover_backtest ⟨true, [1, 2, 3]⟩ 20 50 = .error .notEnoughData
    ∧ ma_crossover_backtest ⟨true, [1, 2]⟩ 1 2 = .ok (btCompute [1, 2] 1 2) := by
  refine ⟨(c4_backtest_errors ⟨true, [1, 2, 3]⟩ 50 20).2.1 (by norm_num), ?_, ?_⟩
  · exact ((c4_backtest_errors ⟨true, [1, 2, 3]⟩ 20 50).2.2.1 rfl (by norm_num)
      (by norm_num)).mpr (by decide)
  · exact (c4_backtest_errors ⟨true, [1, 2]⟩ 1 2).2.2.2 rfl (by norm_num) (by norm_num)
      (by decide)

lemma mem_cumprodFrom_pos : ∀ (l : List ℚ) (acc : ℚ), 0 < acc → (∀ x ∈ l, 0 < x) →
    ∀ y ∈ cumprodFrom acc l, 0 < y := by
  intro l
  induction l with
  | nil =>
      intro acc _ _ y hy
      simp [cumprodFrom] at hy
  | cons x xs ih =>
      intro acc hacc hl y hy
      rw [cumprodFrom] at hy
      rcases List.mem_cons.mp hy with rfl | hy
      · exact mul_pos hacc (hl x (List.mem_cons_self x xs))
      · exact ih (acc * x) (mul_pos hacc (hl x (List.mem_cons_self x xs)))
          (fun z hz => hl z (List.mem_cons_of_mem x hz)) y hy

lemma pctChange_tail_pos : ∀ (cs : List ℚ), (∀ c ∈ cs, 0 < c) →
    ∀ m ∈ List.zipWith (fun prev cur => cur / prev - 1) cs cs.tail, 0 < 1 + m := by
  intro cs
  induction cs with
  | nil => simp
  | cons a rest ih =>
      intro hpos m hm
      cases rest with
      | nil => simp at hm
      | cons b rest2 =>
          simp only [List.tail_cons, List.zipWith_cons_cons] at hm
          rcases List.mem_cons.mp hm with rfl | hm
          · have ha : 0 < a := hpos a (by simp)
            have hb : 0 < b := hpos b (by simp)
            have hd : 0 < b / a := div_pos hb ha
            linarith
          · exact ih (fun c hc => hpos c (List.mem_cons_of_mem a hc)) m hm

lemma sr_factor_pos : ∀ (mr pos : List ℚ), (∀ m ∈ mr, 0 < 1 + m) →
    (∀ p ∈ pos, p = 0 ∨ p = 1) →
    ∀ y ∈ List.zipWith (fun m p => m * p) mr pos, 0 < 1 + y := by
  intro mr
  induction mr with
  | nil => simp
  | cons m mrt ih =>
      intro pos hm hp y hy
      cases pos with
      | nil => simp at hy
      | cons p post =>
          simp only [List.zipWith_cons_cons] at hy
          rcases List.mem_cons.mp hy with rfl | hy
          · rcases hp p (by simp) with rfl | rfl
            · norm_num
            · simpa using hm m (by simp)
          · exact ih post (fun z hz => hm z (List.mem_cons_of_mem m hz))
              (fun z hz => hp z (List.mem_cons_of_mem p hz)) y hy

lemma mem_retained_close (cs : List ℚ) (fwt swt : ℕ) :
    ∀ tr ∈ retainedTriples cs fwt swt, tr.1 ∈ cs := by
  intro tr htr
  rw [retainedTriples, List.mem_filterMap] at htr
  obtain ⟨row, hrow, hsel⟩ := htr
  rw [frameRows, List.mem_map] at hrow
  obtain ⟨i, hi, hrow⟩ := hrow
  rw [List.mem_range] at hi
  rw [Option.bind_eq_some] at hsel
  obtain ⟨f, -, hsel⟩ := hsel
  rw [Option.map_eq_some'] at hsel
  obtain ⟨s, -, htr1⟩ := hsel
  have h1 : tr.1 = row.1 := by rw [← htr1]
  rw [h1, ← hrow]
  simp only []
  rw [List.getD_eq_getElem cs 0 hi]
  exact List.getElem_mem hi

lemma retained_map_close_pos (cs : List ℚ) (fwt swt : ℕ) (hpos : ∀ c ∈ cs, 0 < c) :
    ∀ c ∈ (retainedTriples cs fwt swt).map (fun t => t.1), 0 < c := by
  intro c hc
  rw [List.mem_map] at hc
  obtain ⟨tr, htr, rfl⟩ := hc
  exact hpos _ (mem_retained_close cs fwt swt tr htr)

lemma position_mem_01 (cs : List ℚ) (fwt swt : ℕ) :
    ∀ p ∈ (0 : ℚ) :: ((retainedTriples cs fwt swt).map
        (fun t => if t.2.1 > t.2.2 then (1 : ℚ) else 0)).dropLast, p = 0 ∨ p = 1 := by
  intro p hp
  rcases List.mem_cons.mp hp with rfl | hp
  · exact Or.inl rfl
  · have hp2 := List.dropLast_subset _ hp
    rw [List.mem_map] at hp2
    obtain ⟨tr, -, hEq⟩ := hp2
    by_cases h : tr.2.1 > tr.2.2
    · right
      rw [← hEq, if_pos h]
    · left
      rw [← hEq, if_neg h]

lemma cumS_shape (closeR sig : List ℚ) (c0 : ℚ) (crest : List ℚ) (hc : closeR = c0 :: crest)
    (hcpos : ∀ c ∈ closeR, 0 < c) (hsig : ∀ p ∈ (0 : ℚ) :: sig.dropLast, p = 0 ∨ p = 1) :
    ∃ tl, cumprodFrom 1 ((List.zipWith (fun m p => m * p) (pctChange closeR)
        ((0 : ℚ) :: sig.dropLast)).map (fun x => 1 + x)) = 1 :: tl
      ∧ ∀ x ∈ tl, 0 < x := by
  subst hc
  have h1 : (1 : ℚ) * (1 + 0 * 0) = 1 := by norm_num
  refine ⟨cumprodFrom 1 ((List.zipWith (fun m p => m * p)
      (List.zipWith (fun prev cur => cur / prev - 1) (c0 :: crest) crest)
      sig.dropLast).map (fun x => 1 + x)), ?_, ?_⟩
  · rw [pctChange]
    simp only [List.zipWith_cons_cons, List.map_cons, cumprodFrom, h1]
  · apply mem_cumprodFrom_pos _ 1 one_pos
    intro x hx
    rw [List.mem_map] at hx
    obtain ⟨y, hy, rfl⟩ := hx
    exact sr_factor_pos _ _ (fun m hm => pctChange_tail_pos (c0 :: crest) hcpos m hm)
      (fun p hp => hsig p (List.mem_cons_of_mem 0 hp)) y hy

lemma dd_nonpos : ∀ (xs : List ℚ) (m : ℚ), 0 < m → (∀ x ∈ xs, 0 < x) →
    ∀ y ∈ List.zipWith (fun a b => a / b - 1) xs (cummaxFrom m xs), y ≤ 0 := by
  intro xs
  induction xs with
  | nil => simp [cummaxFrom]
  | cons x rest ih =>
      intro m hm hx y hy
      rw [cummaxFrom] at hy
      simp only [List.zipWith_cons_cons] at hy
      rcases List.mem_cons.mp hy with rfl | hy
      · have hmx : 0 < max m x := lt_max_of_lt_left hm
        have hle : x / max m x ≤ 1 := (div_le_one hmx).mpr (le_max_right m x)
        linarith
      · exact ih (max m x) (lt_max_of_lt_left hm)
          (fun z hz => hx z (List.mem_cons_of_mem x hz)) y hy

lemma dd_zero_iff_chain : ∀ (xs : List ℚ) (m : ℚ), 0 < m → (∀ x ∈ xs, 0 < x) →
    ((∀ y ∈ List.zipWith (fun a b => a / b - 1) xs (cummaxFrom m xs), y = 0)
      ↔ List.Chain' (· ≤ ·) (m :: xs)) := by
  intro xs
  induction xs with
  | nil =>
      intro m _ _
      simp [cummaxFrom]
  | cons x rest ih =>
      intro m hm hx
      rw [cummaxFrom]
      simp only [List.zipWith_cons_cons, List.forall_mem_cons, List.chain'_cons]
      have hx0 : (0 : ℚ) < x := hx x (List.mem_cons_self x rest)
      by_cases hmx : m ≤ x
      · rw [max_eq_right hmx]
        constructor
        · rintro ⟨-, h⟩
          exact ⟨hmx, (ih x hx0 (fun z hz => hx z (List.mem_cons_of_mem x hz))).mp h⟩
        · rintro ⟨-, h⟩
          refine ⟨?_, (ih x hx0 (fun z hz => hx z (List.mem_cons_of_mem x hz))).mpr h⟩
          rw [div_self (ne_of_gt hx0)]
          norm_num
      · constructor
        · rintro ⟨h0, -⟩
          exfalso
          rw [max_eq_left (le_of_not_le hmx)] at h0
          have hxm : x / m = 1 := by linarith
          rw [div_eq_one_iff_eq (ne_of_gt hm)] at hxm
          exact hmx (le_of_eq hxm.symm)
        · rintro ⟨h1, -⟩
          exact absurd h1 hmx

lemma listMinD_spec : ∀ (l : List ℚ) (a : ℚ), a ≤ 0 → (∀ x ∈ l, x ≤ 0) →
    listMinD a l ≤ 0 ∧ (listMinD a l = 0 ↔ (a = 0 ∧ ∀ x ∈ l, x = 0)) := by
  intro l
  induction l with
  | nil =>
      intro a ha _
      simp [listMinD, ha]
  | cons x rest ih =>
      intro a ha hl
      have hx : x ≤ 0 := hl x (List.mem_cons_self x rest)
      have hmin : min a x ≤ 0 := le_trans (min_le_left a x) ha
      have h := ih (min a x) hmin (fun z hz => hl z (List.mem_cons_of_mem x hz))
      simp only [listMinD, List.foldl_cons] at h ⊢
      refine ⟨h.1, ?_⟩
      rw [h.2]
      constructor
      · rintro ⟨hax, hrest⟩
        have h1 : (0 : ℚ) ≤ a := hax ▸ min_le_left a x
        have h2 : (0 : ℚ) ≤ x := hax ▸ min_le_right a x
        refine ⟨le_antisymm ha h1, ?_⟩
        intro z hz
        rcases List.mem_cons.mp hz with rfl | hz
        · exact le_antisymm hx h2
        · exact hrest z hz
      · rintro ⟨ha0, hall⟩
        have hx0 : x = 0 := hall x (List.mem_cons_self x rest)
        exact ⟨by rw [ha0, hx0, min_self], fun z hz => hall z (List.mem_cons_of_mem x hz)⟩

lemma max_drawdown_one_cons (tl : List ℚ) (hpos : ∀ x ∈ tl, 0 < x) :
    max_drawdown (1 :: tl) ≤ 0
    ∧ (max_drawdown (1 :: tl) = 0 ↔ List.Chain' (· ≤ ·) ((1 : ℚ) :: tl)) := by
  have hdd := dd_nonpos tl 1 one_pos hpos
  have hiff := dd_zero_iff_chain tl 1 one_pos hpos
  have hmd : max_drawdown (1 :: tl)
      = listMinD ((1 : ℚ) / 1 - 1)
          (List.zipWith (fun a b => a / b - 1) tl (cummaxFrom 1 tl)) := by
    rw [max_drawdown, if_neg (by simp), cummax]
    simp only [List.zipWith_cons_cons, seriesMin]
  have h11 : (1 : ℚ) / 1 - 1 = 0 := by norm_num
  rw [hmd, h11]
  have hspec := listMinD_spec _ 0 le_rfl hdd
  refine ⟨hspec.1, ?_⟩
  rw [hspec.2]
  constructor
  · rintro ⟨-, hall⟩
    exact hiff.mp hall
  · intro hch
    exact ⟨rfl, hiff.mpr hch⟩

lemma btCompute_cumStrategy (cs : List ℚ) (fwt swt : ℕ) :
    (btCompute cs fwt swt).cumStrategy
      = cumprodFrom 1 ((List.zipWith (fun m p => m * p)
          (pctChange ((retainedTriples cs fwt swt).map (fun t => t.1)))
          ((0 : ℚ) :: ((retainedTriples cs fwt swt).map
            (fun t => if t.2.1 > t.2.2 then (1 : ℚ) else 0)).dropLast)).map
          (fun x => 1 + x)) := rfl

lemma btCompute_maxDrawdownPct (cs : List ℚ) (fwt swt : ℕ) :
    (btCompute cs fwt swt).stats.maxDrawdownPct
      = max_drawdown (btCompute cs fwt swt).cumStrategy * 100 := rfl

/-- C8: for every successful backtest run on a (positive) price series,
max_drawdown_pct is at most 0, it equals 0 exactly when the cumulative
strategy curve is non-decreasing, and the drawdown of an empty series is 0. -/
theorem c8_drawdown_spec (pd : PriceData) (fw sw : ℤ) (r : BtResult)
    (hpos : ∀ c ∈ pd.close, 0 < c)
    (h : ma_crossover_backtest pd fw sw = .ok r) :
    r.stats.maxDrawdownPct ≤ 0
    ∧ (r.stats.maxDrawdownPct = 0 ↔ List.Chain' (· ≤ ·) r.cumStrategy)
    ∧ max_drawdown [] = 0 := by
  rw [ma_crossover_backtest] at h
  split_ifs at h with h1 h2 h3 h4
  rw [Except.ok.injEq] at h
  subst h
  have hne : retainedTriples pd.close fw.toNat sw.toNat ≠ [] :=
    fun he => h4 (List.isEmpty_iff.mpr he)
  have hcne : (retainedTriples pd.close fw.toNat sw.toNat).map (fun t => t.1) ≠ [] := by
    simpa using hne
  obtain ⟨c0, crest, hc⟩ := List.exists_cons_of_ne_nil hcne
  obtain ⟨tl, htl, htlpos⟩ := cumS_shape _ _ c0 crest hc
    (retained_map_close_pos pd.close fw.toNat sw.toNat hpos)
    (position_mem_01 pd.close fw.toNat sw.toNat)
  have hcum : (btCompute pd.close fw.toNat sw.toNat).cumStrategy = 1 :: tl :=
    (btCompute_cumStrategy pd.close fw.toNat sw.toNat).trans htl
  have hmd := max_drawdown_one_cons tl htlpos
  rw [btCompute_maxDrawdownPct, hcum]
  refine ⟨?_, ?_, rfl⟩
  · exact mul_nonpos_iff.mpr (Or.inr ⟨hmd.1, by norm_num⟩)
  · rw [mul_eq_zero]
    constructor
    · rintro (h0 | h100)
      · exact hmd.2.mp h0
      · norm_num at h100
    · intro hch
      exact Or.inl (hmd.2.mpr hch)

theorem c8_drawdown_spec_witness :
    ma_crossover_backtest ⟨true, [1, 2, 1]⟩ 1 2 = .ok (btCompute [1, 2, 1] 1 2)
    ∧ (btCompute [1, 2, 1] 1 2).stats.maxDrawdownPct ≤ 0
    ∧ ((btCompute [1, 2, 1] 1 2).stats.maxDrawdownPct = 0
        ↔ List.Chain' (· ≤ ·) (btCompute [1, 2, 1] 1 2).cumStrategy)
    ∧ max_drawdown [] = 0 := by
  have h := c8_drawdown_spec ⟨true, [1, 2, 1]⟩ 1 2 (btCompute [1, 2, 1] 1 2)
    (by decide) rfl
  exact ⟨rfl, h.1, h.2.1, h.2.2⟩

lemma range'_filterMap_if {α : Type} (g : ℕ → α) (k : ℕ) :
    ∀ (m a : ℕ), (List.range' a m).filterMap (fun i => if k ≤ i then some (g i) else none)
      = (List.range' (max a k) (a + m - max a k)).map g := by
  intro m
  induction m with
  | zero =>
      intro a
      simp [Nat.sub_eq_zero_of_le (le_max_left a k)]
  | succ n ih =>
      intro a
      rw [List.range'_succ]
      by_cases hk : k ≤ a
      · rw [@List.filterMap_cons_some ℕ α (fun i => if k ≤ i then some (g i) else none)
            a (List.range' (a + 1) n) (g a) (by simp [hk]), ih (a + 1)]
        have h1 : max (a + 1) k = a + 1 := max_eq_left (by omega)
        have h2 : max a k = a := max_eq_left hk
        rw [h1, h2]
        have h3 : a + 1 + n - (a + 1) = n := by omega
        have h4 : a + (n + 1) - a = n + 1 := by omega
        rw [h3, h4, List.range'_succ, List.map_cons]
      · rw [@List.filterMap_cons_none ℕ α (fun i => if k ≤ i then some (g i) else none)
            a (List.range' (a + 1) n) (by simp [hk]), ih (a + 1)]
        have h1 : max (a + 1) k = k := max_eq_right (by omega)
        have h2 : max a k = k := max_eq_right (by omega)
        rw [h1, h2]
        have h3 : a + 1 + n = a + (n + 1) := by omega
        rw [h3]

lemma retained_eq (cs : List ℚ) (fwt swt : ℕ) (hf1 : 1 ≤ fwt) (hfs : fwt ≤ swt) :
    retainedTriples cs fwt swt
      = (List.range' (swt - 1) (cs.length - (swt - 1))).map
          (fun i => (cs.getD i 0, smaMean cs fwt i, smaMean cs swt i)) := by
  rw [retainedTriples, frameRows, List.filterMap_map]
  have hfun : ((fun r : ℚ × Option ℚ × Option ℚ =>
        r.2.1.bind (fun f => r.2.2.map (fun s => (r.1, f, s))))
      ∘ (fun i => (cs.getD i 0, smaAt cs fwt i, smaAt cs swt i)))
      = fun i => if swt - 1 ≤ i then
          some (cs.getD i 0, smaMean cs fwt i, smaMean cs swt i) else none := by
    funext i
    simp only [Function.comp_apply]
    by_cases hi : swt ≤ i + 1
    · have hf : smaAt cs fwt i = some (smaMean cs fwt i) := by
        rw [smaAt, if_pos ⟨hf1, by omega⟩]
      have hs : smaAt cs swt i = some (smaMean cs swt i) := by
        rw [smaAt, if_pos ⟨by omega, hi⟩]
      rw [if_pos (by omega : swt - 1 ≤ i)]
      simp [hf, hs]
    · have hs : smaAt cs swt i = none := by
        rw [smaAt, if_neg]
        rintro ⟨-, hc⟩
        omega
      rw [if_neg (by omega : ¬ swt - 1 ≤ i)]
      cases hf : smaAt cs fwt i <;> simp [hf, hs]
  rw [hfun, List.range_eq_range' cs.length, range'_filterMap_if]
  simp only [Nat.zero_max, Nat.zero_add]

lemma btCompute_signal (cs : List ℚ) (fwt swt : ℕ) :
    (btCompute cs fwt swt).signal
      = (retainedTriples cs fwt swt).map
          (fun t => if t.2.1 > t.2.2 then (1 : ℚ) else 0) := rfl

lemma btCompute_position (cs : List ℚ) (fwt swt : ℕ) :
    (btCompute cs fwt swt).position = 0 :: (btCompute cs fwt swt).signal.dropLast := rfl

lemma signal_getD (cs : List ℚ) (fwt swt : ℕ) (hf1 : 1 ≤ fwt) (hfs : fwt ≤ swt) (j : ℕ)
    (hj : j < (btCompute cs fwt swt).signal.length) :
    (btCompute cs fwt swt).signal.getD j 0
      = if smaMean cs fwt (swt - 1 + j) > smaMean cs swt (swt - 1 + j) then 1 else 0 := by
  rw [btCompute_signal, retained_eq cs fwt swt hf1 hfs, List.map_map] at hj ⊢
  rw [List.getD_eq_getElem _ 0 hj, List.getElem_map, List.getElem_range'_1]
  rfl

lemma smaMean_congr_take (cs cs' : List ℚ) (w i K : ℕ) (hiK : i + 1 ≤ K)
    (htake : cs.take K = cs'.take K) : smaMean cs w i = smaMean cs' w i := by
  rw [smaMean, smaMean]
  have e1 : (cs.take K).take (i + 1) = cs.take (i + 1) := by
    rw [List.take_take, min_eq_left hiK]
  have e2 : (cs'.take K).take (i + 1) = cs'.take (i + 1) := by
    rw [List.take_take, min_eq_left hiK]
  rw [← e1, ← e2, htake]

lemma retained_nil_of_fwt_zero (cs : List ℚ) (swt : ℕ) :
    retainedTriples cs 0 swt = [] := by
  rw [retainedTriples, List.filterMap_eq_nil_iff]
  intro r hr
  rw [frameRows, List.mem_map] at hr
  obtain ⟨i, -, rfl⟩ := hr
  have h : smaAt cs 0 i = none := by
    rw [smaAt, if_neg]
    rintro ⟨h1, -⟩
    omega
  simp [h]

lemma backtest_ok_inversion (b : Bool) (cs : List ℚ) (fw sw : ℤ) (r : BtResult)
    (h : ma_crossover_backtest ⟨b, cs⟩ fw sw = .ok r) :
    r = btCompute cs fw.toNat sw.toNat
    ∧ 1 ≤ fw.toNat ∧ fw.toNat ≤ sw.toNat
    ∧ retainedTriples cs fw.toNat sw.toNat ≠ [] := by
  rw [ma_crossover_backtest] at h
  split_ifs at h with h1 h2 h3 h4
  rw [Except.ok.injEq] at h
  have hne : retainedTriples cs fw.toNat sw.toNat ≠ [] :=
    fun he => h4 (List.isEmpty_iff.mpr he)
  have hf1 : 1 ≤ fw.toNat := by
    by_contra hc
    have h0 : fw.toNat = 0 := by omega
    exact hne (by rw [h0]; exact retained_nil_of_fwt_zero _ _)
  have hfs : fw.toNat ≤ sw.toNat := by
    push_neg at h2
    omega
  exact ⟨h.symm, hf1, hfs, hne⟩

lemma btCompute_position_length (cs : List ℚ) (fwt swt : ℕ)
    (hne : retainedTriples cs fwt swt ≠ []) :
    (btCompute cs fwt swt).position.length = (btCompute cs fwt swt).signal.length := by
  rw [btCompute_position, List.length_cons, List.length_dropLast]
  have hlen : (btCompute cs fwt swt).signal.length = (retainedTriples cs fwt swt).length := by
    rw [btCompute_signal, List.length_map]
  have hpos : 0 < (btCompute cs fwt swt).signal.length := by
    rw [hlen]
    exact List.length_pos.mpr hne
  omega

lemma position_getD_zero (cs : List ℚ) (fwt swt : ℕ) :
    (btCompute cs fwt swt).position.getD 0 0 = 0 := by
  rw [btCompute_position]
  rfl

lemma position_getD_succ (cs : List ℚ) (fwt swt : ℕ) (j : ℕ)
    (hj : j + 1 < (btCompute cs fwt swt).position.length) :
    (btCompute cs fwt swt).position.getD (j + 1) 0
      = (btCompute cs fwt swt).signal.getD j 0 := by
  rw [btCompute_position] at hj ⊢
  rw [List.getD_cons_succ]
  have hjlt : j < (btCompute cs fwt swt).signal.dropLast.length := by
    simp only [List.length_cons] at hj
    omega
  have hjlt2 : j < (btCompute cs fwt swt).signal.length := by
    rw [List.length_dropLast] at hjlt
    omega
  rw [List.getD_eq_getElem _ 0 hjlt, List.getD_eq_getElem _ 0 hjlt2]
  exact List.getElem_dropLast _ j hjlt

/-- C5: in every successful run Position at the first retained bar is 0 and
Position[t] = Signal[t-1] for every later retained bar; consequently there is
no look-ahead: two successful runs with the same windows whose close series
agree on the first (slow_window - 1) + t bars — everything up through the bar
before retained row t — have the same Position at retained row t. -/
theorem c5_position_no_lookahead (cs cs' : List ℚ) (fw sw : ℤ) (r r' : BtResult)
    (h : ma_crossover_backtest ⟨true, cs⟩ fw sw = .ok r)
    (h' : ma_crossover_backtest ⟨true, cs'⟩ fw sw = .ok r') :
    r.position.getD 0 0 = 0
    ∧ (∀ t, 0 < t → t < r.position.length →
        r.position.getD t 0 = r.signal.getD (t - 1) 0)
    ∧ (∀ t, t < r.position.length → t < r'.position.length →
        cs.take (sw.toNat - 1 + t) = cs'.take (sw.toNat - 1 + t) →
        r.position.getD t 0 = r'.position.getD t 0) := by
  obtain ⟨hr, hf1, hfs, hne⟩ := backtest_ok_inversion true cs fw sw r h
  obtain ⟨hr', hf1x, hfsx, hnex⟩ := backtest_ok_inversion true cs' fw sw r' h'
  subst hr
  subst hr'
  refine ⟨position_getD_zero cs fw.toNat sw.toNat, ?_, ?_⟩
  · intro t ht hlen
    obtain ⟨j, rfl⟩ : ∃ j, t = j + 1 := ⟨t - 1, by omega⟩
    rw [position_getD_succ cs fw.toNat sw.toNat j hlen]
    simp
  · intro t hlen hlenx htake
    cases t with
    | zero =>
        rw [position_getD_zero, position_getD_zero]
    | succ j =>
        rw [position_getD_succ cs fw.toNat sw.toNat j hlen,
          position_getD_succ cs' fw.toNat sw.toNat j hlenx]
        have hjs : j < (btCompute cs fw.toNat sw.toNat).signal.length := by
          have hpl := btCompute_position_length cs fw.toNat sw.toNat hne
          omega
        have hjsx : j < (btCompute cs' fw.toNat sw.toNat).signal.length := by
          have hpl := btCompute_position_length cs' fw.toNat sw.toNat hnex
          omega
        rw [signal_getD cs fw.toNat sw.toNat hf1 hfs j hjs,
          signal_getD cs' fw.toNat sw.toNat hf1x hfsx j hjsx]
        have hK : sw.toNat - 1 + j + 1 ≤ sw.toNat - 1 + (j + 1) := by omega
        rw [smaMean_congr_take cs cs' fw.toNat (sw.toNat - 1 + j)
            (sw.toNat - 1 + (j + 1)) hK htake,
          smaMean_congr_take cs cs' sw.toNat (sw.toNat - 1 + j)
            (sw.toNat - 1 + (j + 1)) hK htake]

theorem c5_position_no_lookahead_witness :
    (btCompute [1, 2, 3] 1 2).position.getD 0 0 = 0
    ∧ (btCompute [1, 2, 3] 1 2).position.getD 1 0 = (btCompute [1, 2, 3] 1 2).signal.getD 0 0
    ∧ (btCompute [1, 2, 3] 1 2).position.getD 1 0
        = (btCompute [1, 2, 100] 1 2).position.getD 1 0 := by
  have h := c5_position_no_lookahead [1, 2, 3] [1, 2, 100] 1 2
    (btCompute [1, 2, 3] 1 2) (btCompute [1, 2, 100] 1 2) rfl rfl
  refine ⟨h.1, ?_, ?_⟩
  · have h2 := h.2.1 1 (by norm_num) (by decide)
    simpa using h2
  · exact h.2.2 1 (by decide) (by decide) (by decide)
